import Mathlib

/-!
# Verification of the BLTE decoder (`src/keg/blte.py`)

Shallow embedding of the BLTE block-table container decoder.  Bytes are
`Fin 256`, byte strings are `List Byte`, the Python file object is the list
of not-yet-consumed bytes, and every Python exception site is a constructor
of `PyErr`.  The external library calls that the decoder makes —
`hashlib.md5`, `zlib.decompress(·, wbits=0)` — are embedded as executable
Lean functions below (MD5 per RFC 1321, the zlib wrapper per RFC 1950 and
the DEFLATE bit stream per RFC 1951, mirroring zlib's `inflate`).
-/

set_option maxRecDepth 100000

namespace Keg

abbrev Byte := Fin 256

def byteOf (n : Nat) : Byte := ⟨n % 256, Nat.mod_lt _ (by decide)⟩

/-- Build a byte string from plain numerals (each taken mod 256). -/
def bl (l : List Nat) : List Byte := l.map byteOf

/-! ## Hex rendering (`binascii.hexlify` / `hashlib`'s `hexdigest`) -/

def hexChar (n : Nat) : Char :=
  if n < 10 then Char.ofNat (48 + n) else Char.ofNat (87 + n % 16)

/-- Lowercase hex rendering of a byte string, as `binascii.hexlify(..).decode()`
and `hashlib.md5(..).hexdigest()` produce. -/
def hexlify (data : List Byte) : String :=
  String.mk (data.flatMap fun b => [hexChar (b.val / 16), hexChar (b.val % 16)])

/-- Lowercasing of the six uppercase hex letters (used only to state that
two hex strings agree up to letter case). -/
def hexLower (c : Char) : Char :=
  if c = 'A' then 'a' else if c = 'B' then 'b' else if c = 'C' then 'c'
  else if c = 'D' then 'd' else if c = 'E' then 'e' else if c = 'F' then 'f'
  else c

/-! ## MD5 (RFC 1321), the model of `hashlib.md5` -/

def md5K : List Nat := [
  3614090360, 3905402710, 606105819, 3250441966, 4118548399, 1200080426, 2821735955, 4249261313,
  1770035416, 2336552879, 4294925233, 2304563134, 1804603682, 4254626195, 2792965006, 1236535329,
  4129170786, 3225465664, 643717713, 3921069994, 3593408605, 38016083, 3634488961, 3889429448,
  568446438, 3275163606, 4107603335, 1163531501, 2850285829, 4243563512, 1735328473, 2368359562,
  4294588738, 2272392833, 1839030562, 4259657740, 2763975236, 1272893353, 4139469664, 3200236656,
  681279174, 3936430074, 3572445317, 76029189, 3654602809, 3873151461, 530742520, 3299628645,
  4096336452, 1126891415, 2878612391, 4237533241, 1700485571, 2399980690, 4293915773, 2240044497,
  1873313359, 4264355552, 2734768916, 1309151649, 4149444226, 3174756917, 718787259, 3951481745]

def md5S : List Nat := [
  7, 12, 17, 22, 7, 12, 17, 22, 7, 12, 17, 22, 7, 12, 17, 22,
  5, 9, 14, 20, 5, 9, 14, 20, 5, 9, 14, 20, 5, 9, 14, 20,
  4, 11, 16, 23, 4, 11, 16, 23, 4, 11, 16, 23, 4, 11, 16, 23,
  6, 10, 15, 21, 6, 10, 15, 21, 6, 10, 15, 21, 6, 10, 15, 21]

def rotl32 (x s : Nat) : Nat :=
  (((x <<< s) % 4294967296) ||| (x >>> (32 - s)))

def md5F (i b c d : Nat) : Nat :=
  if i < 16 then (b &&& c) ||| ((b ^^^ 4294967295) &&& d)
  else if i < 32 then (d &&& b) ||| ((d ^^^ 4294967295) &&& c)
  else if i < 48 then b ^^^ c ^^^ d
  else c ^^^ (b ||| (d ^^^ 4294967295))

def md5G (i : Nat) : Nat :=
  if i < 16 then i
  else if i < 32 then (5 * i + 1) % 16
  else if i < 48 then (3 * i + 5) % 16
  else (7 * i) % 16

/-- One round of the MD5 compression function. -/
def md5Step (M : List Nat) (st : Nat × Nat × Nat × Nat) (i : Nat) :
    Nat × Nat × Nat × Nat :=
  let (a, b, c, d) := st
  let f := (md5F i b c d + a + md5K.getD i 0 + M.getD (md5G i) 0) % 4294967296
  (d, (b + rotl32 f (md5S.getD i 0)) % 4294967296, b, c)

/-- Split a 64-byte chunk into 16 little-endian 32-bit words. -/
def md5Words : List Nat → List Nat
  | b0 :: b1 :: b2 :: b3 :: rest =>
      (b0 + 256 * b1 + 65536 * b2 + 16777216 * b3) :: md5Words rest
  | _ => []

def md5Chunk (st : Nat × Nat × Nat × Nat) (chunk : List Nat) :
    Nat × Nat × Nat × Nat :=
  let M := md5Words chunk
  let (a, b, c, d) := (List.range 64).foldl (md5Step M) st
  let (a0, b0, c0, d0) := st
  ((a0 + a) % 4294967296, (b0 + b) % 4294967296,
   (c0 + c) % 4294967296, (d0 + d) % 4294967296)

def chunks64Go : Nat → List Nat → List (List Nat)
  | 0, _ => []
  | n+1, l => if l = [] then [] else l.take 64 :: chunks64Go n (l.drop 64)

def chunks64 (l : List Nat) : List (List Nat) := chunks64Go l.length l

def le8 (n : Nat) : List Nat :=
  [n % 256, n / 256 % 256, n / 65536 % 256, n / 16777216 % 256,
   n / 4294967296 % 256, n / 1099511627776 % 256,
   n / 281474976710656 % 256, n / 72057594037927936 % 256]

def md5Pad (msg : List Nat) : List Nat :=
  msg ++ [128] ++ List.replicate ((119 - msg.length % 64) % 64) 0 ++ le8 (8 * msg.length)

def le4 (n : Nat) : List Nat := [n % 256, n / 256 % 256, n / 65536 % 256, n / 16777216 % 256]

/-- MD5 digest (16 raw bytes) of a byte string. -/
def md5 (msg : List Byte) : List Byte :=
  let (a, b, c, d) :=
    (chunks64 (md5Pad (msg.map Fin.val))).foldl md5Chunk
      (1732584193, 4023233417, 2562383102, 271733878)
  bl (le4 a ++ le4 b ++ le4 c ++ le4 d)

/-- Model of `hashlib.md5(data).hexdigest()`. -/
def md5hex (data : List Byte) : String := hexlify (md5 data)

/-! ## Adler-32 (RFC 1950), used by the zlib container trailer -/

def adlerStep (st : Nat × Nat) (b : Byte) : Nat × Nat :=
  let s1 := (st.1 + b.val) % 65521
  (s1, (st.2 + s1) % 65521)

def adler32 (data : List Byte) : Nat :=
  65536 * (data.foldl adlerStep (1, 0)).2 + (data.foldl adlerStep (1, 0)).1

/-! ## DEFLATE (RFC 1951) and the zlib container (RFC 1950)

Model of `zlib.decompress(data, wbits=0)`, mirroring zlib's `inflate`:
with `wbits=0` the stream must carry a zlib header (CMF/FLG) and an
Adler-32 trailer; the window size is taken from the header.
-/

inductive ZErr
  | truncated
  | headerCheck
  | method
  | window
  | needDict
  | blockType
  | storedLen
  | codeSpace
  | badCode
  | badSymbol
  | badDistance
  | badCounts
  | dataCheck
  deriving DecidableEq, Repr

/-- DEFLATE input cursor: remaining bytes plus the bit position (0–7)
inside the head byte.  Bits are consumed LSB-first. -/
structure InfSt where
  bytes : List Byte
  pos : Nat
  deriving Repr, DecidableEq

def readBit : InfSt → Except ZErr (Nat × InfSt)
  | ⟨[], _⟩ => .error .truncated
  | ⟨b :: rest, p⟩ =>
      .ok ((b.val >>> p) &&& 1, if p = 7 then ⟨rest, 0⟩ else ⟨b :: rest, p + 1⟩)

/-- Read `n` bits, LSB-first (the first bit read is the least significant). -/
def readBits : Nat → InfSt → Except ZErr (Nat × InfSt)
  | 0, st => .ok (0, st)
  | n+1, st =>
      (readBit st).bind fun b =>
        (readBits n b.2).map fun v => (b.1 + 2 * v.1, v.2)

/-- Discard the bits remaining in the current byte (used by stored blocks
and before the trailer). -/
def alignByte (st : InfSt) : InfSt :=
  if st.pos = 0 then st else ⟨st.bytes.drop 1, 0⟩

def takeBytes (n : Nat) (st : InfSt) : Except ZErr (List Byte × InfSt) :=
  if st.bytes.length < n then .error .truncated
  else .ok (st.bytes.take n, ⟨st.bytes.drop n, st.pos⟩)

/-- Canonical Huffman decoding table: `counts` has the number of codes per
bit length (index 0–15), `symbols` lists symbols sorted by (length, value). -/
structure Huff where
  counts : List Nat
  symbols : List Nat
  deriving Repr

def huffSymbols (lengths : List Nat) (l : Nat) : List Nat :=
  lengths.enum.filterMap fun p => if p.2 = l then some p.1 else none

/-- Build a canonical Huffman table from code lengths, rejecting
over-subscribed length sets (zlib does the same; incomplete sets fail
later, at decode time). -/
def buildHuff (lengths : List Nat) : Except ZErr Huff :=
  let counts := (List.range 16).map fun l => lengths.count l
  let check := (List.range 15).foldl
    (fun left l =>
      match left with
      | none => none
      | some lf =>
          let c := counts.getD (l + 1) 0
          if 2 * lf < c then none else some (2 * lf - c))
    (some 1)
  match check with
  | none => .error .codeSpace
  | some _ =>
      .ok ⟨counts, ((List.range 15).map (· + 1)).flatMap (huffSymbols lengths)⟩

/-- One canonical-Huffman symbol: walk the code lengths reading one bit at
a time (the structure of zlib/puff's `decode`). -/
def decodeSymGo (h : Huff) : Nat → Nat → Nat → Nat → Nat → InfSt →
    Except ZErr (Nat × InfSt)
  | 0, _, _, _, _, _ => .error .badCode
  | fuel+1, len, code, first, index, st => do
      let (b, st1) ← readBit st
      let code1 := code + b
      let count := h.counts.getD len 0
      if first ≤ code1 ∧ code1 - first < count then
        .ok (h.symbols.getD (index + (code1 - first)) 0, st1)
      else
        decodeSymGo h fuel (len + 1) (2 * code1) (2 * (first + count))
          (index + count) st1

def decodeSym (h : Huff) (st : InfSt) : Except ZErr (Nat × InfSt) :=
  decodeSymGo h 15 1 0 0 0 st

/-- The (base value, extra-bit count) table for length symbols 257–285
(RFC 1951 section 3.2.5). -/
def lenTab : List (Nat × Nat) :=
  [(3, 0), (4, 0), (5, 0), (6, 0), (7, 0), (8, 0), (9, 0), (10, 0),
   (11, 1), (13, 1), (15, 1), (17, 1), (19, 2), (23, 2), (27, 2), (31, 2),
   (35, 3), (43, 3), (51, 3), (59, 3), (67, 4), (83, 4), (99, 4), (115, 4),
   (131, 5), (163, 5), (195, 5), (227, 5), (258, 0)]

/-- The (base value, extra-bit count) table for distance symbols 0–29
(RFC 1951 section 3.2.5). -/
def distTab : List (Nat × Nat) :=
  [(1, 0), (2, 0), (3, 0), (4, 0), (5, 1), (7, 1), (9, 2), (13, 2),
   (17, 3), (25, 3), (33, 4), (49, 4), (65, 5), (97, 5), (129, 6), (193, 6),
   (257, 7), (385, 7), (513, 8), (769, 8), (1025, 9), (1537, 9),
   (2049, 10), (3073, 10), (4097, 11), (6145, 11), (8193, 12), (12289, 12),
   (16385, 13), (24577, 13)]

/-- LZ77 back-reference copy, one byte at a time (overlapping copies
repeat recently appended bytes, as in zlib). -/
def lzCopy : List Byte → Nat → Nat → List Byte
  | out, _, 0 => out
  | out, dist, len+1 =>
      lzCopy (out ++ [out.getD (out.length - dist) (byteOf 0)]) dist len

/-- Decode literal/length-distance symbols until the end-of-block symbol.
The fuel is an upper bound on the number of symbols (each consumes at
least one input bit). -/
def inflateCodes (lit dist : Huff) : Nat → InfSt → List Byte →
    Except ZErr (List Byte × InfSt)
  | 0, _, _ => .error .truncated
  | fuel+1, st, out => do
      let (sym, st) ← decodeSym lit st
      if sym < 256 then
        inflateCodes lit dist fuel st (out ++ [byteOf sym])
      else if sym = 256 then
        .ok (out, st)
      else if sym > 285 then
        .error .badSymbol
      else do
        let i := sym - 257
        let (e, st) ← readBits (lenTab.getD i (0, 0)).2 st
        let len := (lenTab.getD i (0, 0)).1 + e
        let (dsym, st) ← decodeSym dist st
        if dsym > 29 then
          .error .badSymbol
        else do
          let (de, st) ← readBits (distTab.getD dsym (0, 0)).2 st
          let d := (distTab.getD dsym (0, 0)).1 + de
          if out.length < d then
            .error .badDistance
          else
            inflateCodes lit dist fuel st (lzCopy out d len)

def fixedLitLengths : List Nat :=
  List.replicate 144 8 ++ List.replicate 112 9 ++
  List.replicate 24 7 ++ List.replicate 8 8

def fixedDistLengths : List Nat := List.replicate 30 5

def clOrder : List Nat :=
  [16, 17, 18, 0, 8, 7, 9, 6, 10, 5, 11, 4, 12, 3, 13, 2, 14, 1, 15]

def readTriples : Nat → InfSt → Except ZErr (List Nat × InfSt)
  | 0, st => .ok ([], st)
  | n+1, st => do
      let (v, st1) ← readBits 3 st
      let (vs, st2) ← readTriples n st1
      .ok (v :: vs, st2)

/-- Scatter the 3-bit code-length-code lengths into positions given by
`clOrder`; unread positions are 0. -/
def clLengths (vs : List Nat) : List Nat :=
  (List.range 19).map fun i => vs.getD (clOrder.indexOf i) 0

/-- Decode the `HLIT + HDIST` code lengths using the code-length code,
with the 16/17/18 repeat symbols (repeats may not overrun, as in zlib). -/
def readCodeLens (h : Huff) : Nat → Nat → InfSt → List Nat →
    Except ZErr (List Nat × InfSt)
  | 0, _, _, _ => .error .truncated
  | fuel+1, need, st, acc =>
      if need = 0 then .ok (acc, st)
      else do
        let (sym, st) ← decodeSym h st
        if sym < 16 then
          readCodeLens h fuel (need - 1) st (acc ++ [sym])
        else if sym = 16 then
          match acc.getLast? with
          | none => .error .badCounts
          | some prev => do
              let (e, st) ← readBits 2 st
              let rep := 3 + e
              if rep > need then .error .badCounts
              else readCodeLens h fuel (need - rep) st (acc ++ List.replicate rep prev)
        else if sym = 17 then do
          let (e, st) ← readBits 3 st
          let rep := 3 + e
          if rep > need then .error .badCounts
          else readCodeLens h fuel (need - rep) st (acc ++ List.replicate rep 0)
        else if sym = 18 then do
          let (e, st) ← readBits 7 st
          let rep := 11 + e
          if rep > need then .error .badCounts
          else readCodeLens h fuel (need - rep) st (acc ++ List.replicate rep 0)
        else .error .badSymbol

/-- Parse a dynamic-Huffman block header into its two decoding tables. -/
def inflateDynamic (fuel : Nat) (st : InfSt) :
    Except ZErr (Huff × Huff × InfSt) := do
  let (hlit, st) ← readBits 5 st
  let (hdist, st) ← readBits 5 st
  let (hclen, st) ← readBits 4 st
  let nlen := hlit + 257
  let ndist := hdist + 1
  if nlen > 286 ∨ ndist > 30 then .error .badCounts
  else do
    let (vs, st) ← readTriples (hclen + 4) st
    let cl ← buildHuff (clLengths vs)
    let (lens, st) ← readCodeLens cl fuel (nlen + ndist) st []
    let litlens := lens.take nlen
    let distlens := lens.drop nlen
    if litlens.getD 256 0 = 0 then .error .badCounts
    else do
      let lit ← buildHuff litlens
      let dist ← buildHuff distlens
      .ok (lit, dist, st)

/-- The DEFLATE block loop: read `BFINAL`/`BTYPE`, process a stored,
fixed-Huffman or dynamic-Huffman block, stop after the final block.
The fuel bounds the number of processing steps (each consumes input). -/
def inflateBlocks : Nat → InfSt → List Byte → Except ZErr (List Byte × InfSt)
  | 0, _, _ => .error .truncated
  | fuel+1, st, out =>
      (readBit st).bind fun bf =>
        (readBits 2 bf.2).bind fun bt =>
          if bt.1 = 0 then
            (readBits 16 (alignByte bt.2)).bind fun ln =>
              (readBits 16 ln.2).bind fun nl =>
                if ln.1 ^^^ 65535 ≠ nl.1 then .error .storedLen
                else
                  (takeBytes ln.1 nl.2).bind fun ck =>
                    if bf.1 = 1 then .ok (out ++ ck.1, ck.2)
                    else inflateBlocks fuel ck.2 (out ++ ck.1)
          else if bt.1 = 1 then
            (buildHuff fixedLitLengths).bind fun lit =>
              (buildHuff fixedDistLengths).bind fun dist =>
                (inflateCodes lit dist fuel bt.2 out).bind fun oc =>
                  if bf.1 = 1 then .ok oc
                  else inflateBlocks fuel oc.2 oc.1
          else if bt.1 = 2 then
            (inflateDynamic fuel bt.2).bind fun tabs =>
              (inflateCodes tabs.1 tabs.2.1 fuel tabs.2.2 out).bind fun oc =>
                if bf.1 = 1 then .ok oc
                else inflateBlocks fuel oc.2 oc.1
          else .error .blockType

/-- Raw-DEFLATE decompression (RFC 1951, no container), i.e.
`zlib.decompress(data, wbits=-15)`.  Used to certify that a byte string
is a valid raw-deflate compression of some plaintext. -/
def inflateRaw (data : List Byte) : Except ZErr (List Byte) :=
  (inflateBlocks (8 * data.length + 16) ⟨data, 0⟩ []).map Prod.fst

def read4BE (st : InfSt) : Except ZErr (Nat × InfSt) :=
  (takeBytes 4 st).map fun bs =>
    (bs.1.foldl (fun a b => 256 * a + b.val) 0, bs.2)

/-- Model of `zlib.decompress(data, wbits=0)`: zlib header (header check,
method, window size from the header, no preset dictionary), DEFLATE body,
Adler-32 trailer.  Check order follows zlib's `inflate` HEAD state. -/
def zlibDecompress (data : List Byte) : Except ZErr (List Byte) :=
  match data with
  | cmf :: flg :: rest =>
      if (256 * cmf.val + flg.val) % 31 ≠ 0 then .error .headerCheck
      else if cmf.val &&& 15 ≠ 8 then .error .method
      else if cmf.val >>> 4 > 7 then .error .window
      else if flg.val &&& 32 ≠ 0 then .error .needDict
      else
        (inflateBlocks (8 * data.length + 16) ⟨rest, 0⟩ []).bind fun os =>
          (read4BE (alignByte os.2)).bind fun av =>
            if av.1 = adler32 os.1 then .ok os.1 else .error .dataCheck
  | _ => .error .truncated

/-! ## A reference DEFLATE compressor (stored blocks only)

Used as the "standard deflate encoder" of the round-trip claims: every
byte string has a valid DEFLATE encoding made of stored blocks of at most
65535 bytes each. -/

def mkStored (final : Bool) (c : List Byte) : List Byte :=
  byteOf (if final then 1 else 0) ::
  byteOf (c.length % 256) :: byteOf (c.length / 256) ::
  byteOf ((c.length ^^^ 65535) % 256) :: byteOf ((c.length ^^^ 65535) / 256) :: c

def encodeChunks : List (List Byte) → List Byte
  | [] => []
  | [c] => mkStored true c
  | c :: cs => mkStored false c ++ encodeChunks cs

def chunksOfGo : Nat → List Byte → List (List Byte)
  | 0, l => [l]
  | n+1, l =>
      if l.length ≤ 65535 then [l]
      else l.take 65535 :: chunksOfGo n (l.drop 65535)

def chunksOf (l : List Byte) : List (List Byte) := chunksOfGo l.length l

/-- Raw-DEFLATE compression of `Q` (stored blocks, RFC 1951). -/
def deflateStored (Q : List Byte) : List Byte := encodeChunks (chunksOf Q)

def be4 (n : Nat) : List Byte := bl [n / 16777216, n / 65536, n / 256, n]

/-- zlib-format compression of `Q`: CMF/FLG header `78 01`, stored-block
DEFLATE body, big-endian Adler-32 trailer (RFC 1950). -/
def zlibCompressStored (Q : List Byte) : List Byte :=
  bl [120, 1] ++ deflateStored Q ++ be4 (adler32 Q)

/-! ## The decoder itself (`src/keg/blte.py`)

Each Python exception site is one constructor.  The bare `assert`
statements raise `AssertionError` with no message, so the corresponding
constructors carry no data; `ValueError(f"Unknown block type {type}")`
interpolates the tag byte, so its constructor carries it; all
`zlib.error`s collapse into one constructor, as in Python. -/

inductive PyErr
  | indexError
  | structError
  | assertBadMagic
  | assertBadVersion
  | assertHeaderChecksum
  | assertBlockChecksum
  | unknownBlockType (t : Byte)
  | alreadyIterated
  | zlibError (e : ZErr)
  deriving DecidableEq, Repr

/-- `decode_block` (blte.py lines 33–41): dispatch on the leading tag
byte; `data[0]` on an empty byte string raises `IndexError`. -/
def decode_block (data : List Byte) : Except PyErr (List Byte) :=
  match data with
  | [] => .error .indexError
  | t :: payload =>
      if t.val = 78 then .ok payload
      else if t.val = 90 then
        match zlibDecompress payload with
        | .ok out => .ok out
        | .error e => .error (.zlibError e)
      else .error (.unknownBlockType t)

/-- One block-table row: `(encoded_size, decoded_size, hexlify(md5).decode())`. -/
structure BlockEntry where
  encoded_size : Int
  decoded_size : Int
  md5 : String
  deriving DecidableEq, Repr

/-- Big-endian signed 32-bit integer (`struct.unpack(">i", ·)`). -/
def i32be (b : List Byte) : Int :=
  let n : Nat := b.foldl (fun a x => 256 * a + x.val) 0
  if n < 2147483648 then (n : Int) else (n : Int) - 4294967296

/-- `BLTEDecoder.parse_block_info`: 3-byte big-endian block count
(zero-extended through `struct.unpack(">i", b"\x00" + ...)`), then 24-byte
rows; a short read makes `struct.unpack` fail (`struct.error`). -/
def parse_block_info_loop : Nat → List Byte → Except PyErr (List BlockEntry)
  | 0, _ => .ok []
  | n+1, data =>
      if (data.take 24).length < 24 then .error .structError
      else
        (parse_block_info_loop n (data.drop 24)).map
          (fun rest => ⟨i32be ((data.take 24).take 4),
            i32be (((data.take 24).drop 4).take 4),
            hexlify ((data.take 24).drop 8)⟩ :: rest)

def parse_block_info (data : List Byte) : Except PyErr (List BlockEntry) :=
  if (data.take 3).length < 3 then .error .structError
  else
    let num_blocks := (i32be (byteOf 0 :: data.take 3)).toNat
    parse_block_info_loop num_blocks (data.drop 3)

/-- The Python file object: `read(n)` returns at most `n` bytes; a
negative `n` reads everything that is left. -/
def readFp (fp : List Byte) (n : Int) : List Byte × List Byte :=
  if n < 0 then (fp, []) else (fp.take n.toNat, fp.drop n.toNat)

/-- `BLTEDecoder.parse_header` (blte.py lines 54–66): magic, header size,
version byte, block-info region, optional whole-header MD5 check against
the externally supplied hash, then block-info parsing.  Returns the block
table and the unread remainder of the stream. -/
def parse_header (fp : List Byte) (hash : String) (verify : Bool) :
    Except PyErr (List BlockEntry × List Byte) :=
  if (fp.take 8).take 4 ≠ bl [66, 76, 84, 69] then .error .assertBadMagic
  else if (((fp.take 8).drop 4).take 4).length < 4 then .error .structError
  else if (fp.drop 8).take 1 ≠ bl [15] then .error .assertBadVersion
  else if verify ∧ hash ≠ md5hex (fp.take 8 ++ bl [15] ++
      (readFp ((fp.drop 8).drop 1) (i32be (((fp.take 8).drop 4).take 4) - 9)).1) then
    .error .assertHeaderChecksum
  else
    (parse_block_info
        (readFp ((fp.drop 8).drop 1) (i32be (((fp.take 8).drop 4).take 4) - 9)).1).map
      (fun t => (t, (readFp ((fp.drop 8).drop 1)
        (i32be (((fp.take 8).drop 4).take 4) - 9)).2))

/-- The `BLTEDecoder` object right after `__init__` finished: the stream
remainder, the parsed block table, the traversal cursor `_block_index`,
and the constructor arguments `hash` and `verify`. -/
structure BLTEDecoder where
  fp : List Byte
  block_table : List BlockEntry
  block_index : Nat
  hash : String
  verify : Bool
  deriving DecidableEq, Repr

/-- `BLTEDecoder(fp, hash, verify)`: parse the header eagerly, cursor 0. -/
def BLTEDecoder.init (fp : List Byte) (hash : String) (verify : Bool) :
    Except PyErr BLTEDecoder :=
  (parse_header fp hash verify).map fun p =>
    ⟨p.2, p.1, 0, hash, verify⟩

/-- The body of one `encoded_blocks` loop iteration: read `encoded_size`
bytes, optionally compare the table checksum with the MD5 of what was
read (a bare `assert`), bump `_block_index`, yield the raw bytes. -/
def produceOne (d : BLTEDecoder) (e : BlockEntry) :
    Except PyErr (List Byte × BLTEDecoder) :=
  if d.verify ∧ e.md5 ≠ md5hex (readFp d.fp e.encoded_size).1 then
    .error .assertBlockChecksum
  else
    .ok ((readFp d.fp e.encoded_size).1,
      { d with fp := (readFp d.fp e.encoded_size).2,
               block_index := d.block_index + 1 })

/-- Driving the `encoded_blocks` generator through the remaining block
table rows, collecting every yielded raw block. -/
def runEncLoop : List BlockEntry → BLTEDecoder →
    Except PyErr (List (List Byte) × BLTEDecoder)
  | [], d => .ok ([], d)
  | e :: rest, d =>
      (produceOne d e).bind fun p =>
        (runEncLoop rest p.2).map fun r => (p.1 :: r.1, r.2)

/-- Fully consuming a fresh `encoded_blocks` generator.  Its body runs on
the first advance: the guard `if self._block_index: raise RuntimeError`
fires then, after which the loop walks the whole block table. -/
def runEnc (d : BLTEDecoder) :
    Except PyErr (List (List Byte) × BLTEDecoder) :=
  if d.block_index ≠ 0 then .error .alreadyIterated
  else runEncLoop d.block_table d

/-- Driving the `blocks` generator: each raw block from `encoded_blocks`
is passed through `decode_block` before being yielded. -/
def runDecLoop : List BlockEntry → BLTEDecoder →
    Except PyErr (List (List Byte) × BLTEDecoder)
  | [], d => .ok ([], d)
  | e :: rest, d =>
      (produceOne d e).bind fun p =>
        (decode_block p.1).bind fun dec =>
          (runDecLoop rest p.2).map fun r => (dec :: r.1, r.2)

/-- Fully consuming a fresh `blocks` generator (it drives
`encoded_blocks`, so the same one-shot guard fires on first advance). -/
def runDec (d : BLTEDecoder) :
    Except PyErr (List (List Byte) × BLTEDecoder) :=
  if d.block_index ≠ 0 then .error .alreadyIterated
  else runDecLoop d.block_table d

/-- Construct a decoder from a byte stream and consume `blocks` fully:
`list(BLTEDecoder(fp, hash, verify).blocks)`. -/
def fullDecode (fp : List Byte) (hash : String) (verify : Bool) :
    Except PyErr (List (List Byte)) :=
  (BLTEDecoder.init fp hash verify).bind fun d => (runDec d).map Prod.fst

/-- Control state of one `encoded_blocks` generator object: requesting the
property creates a `fresh` generator without running any of its body; the
body (including the `if self._block_index: raise` guard) runs only when
the generator is first advanced. -/
inductive EncGenState
  | fresh
  | running (remaining : List BlockEntry)
  | finished
  deriving DecidableEq, Repr

/-- Python `property` access `d.encoded_blocks`: builds a generator object
and nothing else — it cannot raise. -/
def encoded_blocks_request (_ : BLTEDecoder) : EncGenState := .fresh

/-- One `next()` on an `encoded_blocks` generator: the one-shot guard runs
on the first advance only; afterwards each advance produces one raw block
(or `none` at exhaustion, Python's `StopIteration`). -/
def encGenStep (d : BLTEDecoder) :
    EncGenState → Except PyErr (Option (List Byte) × BLTEDecoder × EncGenState)
  | .fresh =>
      if d.block_index ≠ 0 then .error .alreadyIterated
      else
        match d.block_table with
        | [] => .ok (none, d, .finished)
        | e :: rest => (produceOne d e).map fun p => (some p.1, p.2, .running rest)
  | .running [] => .ok (none, d, .finished)
  | .running (e :: rest) =>
      (produceOne d e).map fun p => (some p.1, p.2, .running rest)
  | .finished => .ok (none, d, .finished)

/-! ## Container construction (the byte layout of section 6 of the spec) -/

/-- Big-endian 3-byte block count. -/
def be3 (n : Nat) : List Byte := bl [n / 65536, n / 256, n]

/-- One block-descriptor row: `encoded_size`, `decoded_size` (big-endian
signed 32-bit) and 16 raw checksum bytes. -/
def mkEntryBytes (e : Int × Int × List Byte) : List Byte :=
  be4 (e.1.toNat % 4294967296) ++ be4 (e.2.1.toNat % 4294967296) ++ e.2.2

/-- A whole BLTE container: magic, header size, version `0x0f`, block
count, descriptor rows, then the concatenated encoded blocks. -/
def mkContainer (entries : List (Int × Int × List Byte)) (body : List Byte) :
    List Byte :=
  bl [66, 76, 84, 69] ++ be4 (12 + 24 * entries.length) ++ bl [15] ++
    be3 entries.length ++ entries.flatMap mkEntryBytes ++ body

/-! ## Concrete containers for witnesses and counterexamples -/

/-- Two-block container: block 0 is tag `N` with payload `abcd`, block 1
is tag `Z` with `zlib.compress(b"xyz")`; both table checksums correct. -/
def contEx : List Byte := bl [66, 76, 84, 69, 0, 0, 0, 60, 15, 0, 0, 2,
  0, 0, 0, 5, 0, 0, 0, 4,
  123, 80, 160, 146, 21, 244, 172, 145, 21, 238, 168, 212, 154, 109, 57, 133,
  0, 0, 0, 12, 0, 0, 0, 3,
  196, 79, 46, 213, 238, 81, 187, 165, 225, 141, 54, 45, 129, 47, 100, 159,
  78, 97, 98, 99, 100, 90, 120, 156, 171, 168, 172, 2, 0, 2, 215, 1, 108]

/-- MD5 (lowercase hex) of `contEx`'s 60-byte header. -/
def contExHash : String := "a01aad1b5e55b720db02b3c2876dbbf2"

/-- The parsed block table of `contEx`. -/
def tabEx : List BlockEntry :=
  [⟨5, 4, "7b50a09215f4ac9115eea8d49a6d3985"⟩,
   ⟨12, 3, "c44f2ed5ee51bba5e18d362d812f649f"⟩]

/-- The body (concatenated encoded blocks) of `contEx`. -/
def bodyEx : List Byte :=
  bl [78, 97, 98, 99, 100, 90, 120, 156, 171, 168, 172, 2, 0, 2, 215, 1, 108]

/-- The decoder state right after constructing a decoder on `contEx`
without verification. -/
def dEx : BLTEDecoder := ⟨bodyEx, tabEx, 0, contExHash, false⟩

/-- The decoder state after fully consuming `dEx`: empty stream, cursor 2. -/
def dExDone : BLTEDecoder := ⟨[], tabEx, 2, contExHash, false⟩

/-- Container with an empty block table (header size 12, zero blocks). -/
def contEmptyT : List Byte := bl [66, 76, 84, 69, 0, 0, 0, 12, 15, 0, 0, 0]

/-- Decoder on `contEmptyT`. -/
def dEmptyT : BLTEDecoder := ⟨[], [], 0, "x", false⟩

/-- Container whose single block has a declared `encoded_size` of 0. -/
def contZeroB : List Byte :=
  bl [66, 76, 84, 69, 0, 0, 0, 36, 15, 0, 0, 1] ++ bl (List.replicate 24 0)

/-- Like `contEx`, but block 0's table checksum is 16 zero bytes (wrong);
block 1's is correct. -/
def contCkA : List Byte := bl [66, 76, 84, 69, 0, 0, 0, 60, 15, 0, 0, 2,
  0, 0, 0, 5, 0, 0, 0, 4,
  0, 0, 0, 0, 0, 0, 0, 0, 0, 0, 0, 0, 0, 0, 0, 0,
  0, 0, 0, 12, 0, 0, 0, 3,
  196, 79, 46, 213, 238, 81, 187, 165, 225, 141, 54, 45, 129, 47, 100, 159,
  78, 97, 98, 99, 100, 90, 120, 156, 171, 168, 172, 2, 0, 2, 215, 1, 108]

/-- MD5 (lowercase hex) of `contCkA`'s header. -/
def contCkAHash : String := "966ebf1344b67aa6237110f84bc3f7e5"

/-- Like `contEx`, but block 1's table checksum is 16 zero bytes (wrong);
block 0's is correct. -/
def contCkB : List Byte := bl [66, 76, 84, 69, 0, 0, 0, 60, 15, 0, 0, 2,
  0, 0, 0, 5, 0, 0, 0, 4,
  123, 80, 160, 146, 21, 244, 172, 145, 21, 238, 168, 212, 154, 109, 57, 133,
  0, 0, 0, 12, 0, 0, 0, 3,
  0, 0, 0, 0, 0, 0, 0, 0, 0, 0, 0, 0, 0, 0, 0, 0,
  78, 97, 98, 99, 100, 90, 120, 156, 171, 168, 172, 2, 0, 2, 215, 1, 108]

/-- MD5 (lowercase hex) of `contCkB`'s header. -/
def contCkBHash : String := "5502d1fe4b4a77b1fff278e3a44711eb"

/-- A minimal decoder state with verification on and a wrong table
checksum for its single entry. -/
def dMini : BLTEDecoder :=
  ⟨bl [1, 2, 3], [⟨3, 3, "00000000000000000000000000000000"⟩], 0, "", true⟩

/-- A stored-block raw-DEFLATE compression of the two bytes `ab`
(RFC 1951, no zlib header or trailer). -/
def rawDeflateAB : List Byte := bl [1, 2, 0, 253, 255, 97, 98]

/-! # Theorems -/

/-- Helper: binding a failed `Except PyErr` computation propagates the
error. -/
theorem bindPyErr {α β : Type} (e : PyErr) (f : α → Except PyErr β) :
    (Except.error e : Except PyErr α).bind f = .error e := rfl

/-- Helper: binding a successful `Except PyErr` computation applies the
continuation. -/
theorem bindPyOk {α β : Type} (a : α) (f : α → Except PyErr β) :
    (Except.ok a : Except PyErr α).bind f = f a := rfl

/-- Helper: mapping over a failed `Except PyErr` computation propagates
the error. -/
theorem mapPyErr {α β : Type} (e : PyErr) (f : α → β) :
    (Except.error e : Except PyErr α).map f = .error e := rfl

/-- Helper: mapping over a successful `Except PyErr` computation applies
the function. -/
theorem mapPyOk {α β : Type} (a : α) (f : α → β) :
    (Except.ok a : Except PyErr α).map f = .ok (f a) := rfl

/-- C7: for every byte sequence `P`, decoding a block whose bytes are the
tag byte `N` (78) followed by `P` yields exactly `P`. -/
theorem C7_store_identity (p : List Byte) :
    decode_block (byteOf 78 :: p) = .ok p := rfl

/-- C5: for every tag byte other than `N` (78) and `Z` (90) and every
payload, decoding the block fails immediately with the unknown-block-type
`ValueError`, whose message interpolates the offending tag byte. -/
theorem C5_unknown_tag (t : Byte) (payload : List Byte)
    (h78 : t.val ≠ 78) (h90 : t.val ≠ 90) :
    decode_block (t :: payload) = .error (.unknownBlockType t) := by
  simp [decode_block, h78, h90]

/-- Witness for C5 at the tag byte `X` (88). -/
theorem C5_unknown_tag_witness :
    (byteOf 88).val ≠ 78 ∧ (byteOf 88).val ≠ 90 ∧
      decode_block (byteOf 88 :: bl [1, 2, 3]) =
        .error (.unknownBlockType (byteOf 88)) :=
  ⟨by decide, by decide,
    C5_unknown_tag (byteOf 88) (bl [1, 2, 3]) (by decide) (by decide)⟩

/-- C10: `decode_block` on the empty byte string fails with the
out-of-range `IndexError` from `data[0]` — not a value and not the
unknown-block-type `ValueError` — and a container that declares a block
of `encoded_size` 0 indeed reaches exactly this failure. -/
theorem C10_empty_block :
    decode_block ([] : List Byte) = .error .indexError ∧
    (∀ t : Byte, (PyErr.indexError ≠ PyErr.unknownBlockType t)) ∧
    fullDecode contZeroB "irrelevant" false = .error .indexError :=
  ⟨rfl, fun _ h => PyErr.noConfusion h, rfl⟩

/-- C2 (amended): with verification enabled, when the MD5 of the bytes
read for the block at the head of the remaining table differs from that
block's table checksum, both the decoded and the raw traversal fail with
the checksum `AssertionError` — in particular the decoded traversal fails
with that error and not with any decoding error, i.e. before
`decode_block` is ever applied to the block's payload.  The bare `assert`
carries no block index. -/
theorem C2_checksum_before_decode (d : BLTEDecoder) (e : BlockEntry)
    (rest : List BlockEntry) (hv : d.verify = true)
    (hm : e.md5 ≠ md5hex (readFp d.fp e.encoded_size).1) :
    runDecLoop (e :: rest) d = .error .assertBlockChecksum ∧
    runEncLoop (e :: rest) d = .error .assertBlockChecksum := by
  have hp : produceOne d e = .error .assertBlockChecksum := by
    unfold produceOne
    rw [hv]
    simp [hm]
  exact ⟨by rw [runDecLoop, hp, bindPyErr], by rw [runEncLoop, hp, bindPyErr]⟩

/-- Witness for the amended C2 on a concrete three-byte block with a
zeroed table checksum. -/
theorem C2_checksum_before_decode_witness :
    dMini.verify = true ∧
    (⟨3, 3, "00000000000000000000000000000000"⟩ : BlockEntry).md5 ≠
      md5hex (readFp dMini.fp (3 : Int)).1 ∧
    runDecLoop [⟨3, 3, "00000000000000000000000000000000"⟩] dMini =
      .error .assertBlockChecksum :=
  ⟨rfl, by decide,
    (C2_checksum_before_decode dMini ⟨3, 3, "00000000000000000000000000000000"⟩
      [] rfl (by decide)).1⟩

/-- Counterexample to C2 as stated: the checksum failure does not name
the failing block's index.  `contCkA` has a corrupted table checksum at
block index 0 and `contCkB` at block index 1, yet both decodes fail with
the *same* error value (a bare `AssertionError` carrying no index). -/
theorem C2_index_not_named :
    fullDecode contCkA contCkAHash true = .error .assertBlockChecksum ∧
    fullDecode contCkB contCkBHash true = .error .assertBlockChecksum ∧
    fullDecode contCkA contCkAHash true = fullDecode contCkB contCkBHash true :=
  ⟨rfl, rfl, rfl⟩

/-- Helper: `parse_block_info_loop` can only fail with the short-read
`struct.error`. -/
theorem parse_block_info_loop_err (n : Nat) (data : List Byte) (e : PyErr)
    (h : parse_block_info_loop n data = .error e) : e = .structError := by
  induction n generalizing data with
  | zero => simp [parse_block_info_loop] at h
  | succ n ih =>
      rw [parse_block_info_loop] at h
      split at h
      · cases h
        rfl
      · cases hrec : parse_block_info_loop n (data.drop 24) with
        | error e2 =>
            rw [hrec, mapPyErr] at h
            cases h
            exact ih _ hrec
        | ok t =>
            rw [hrec, mapPyOk] at h
            cases h

/-- Helper: `parse_block_info` can only fail with the short-read
`struct.error`. -/
theorem parse_block_info_err (data : List Byte) (e : PyErr)
    (h : parse_block_info data = .error e) : e = .structError := by
  unfold parse_block_info at h
  split at h
  · cases h
    rfl
  · exact parse_block_info_loop_err _ _ _ h

/-- Helper: under a good magic, a stream of at least 8 bytes and a good
version byte, `parse_header` reduces to the verification gate followed by
block-info parsing. -/
theorem parse_header_checks (fp : List Byte) (hash : String) (verify : Bool)
    (hm : fp.take 4 = bl [66, 76, 84, 69]) (hlen : 8 ≤ fp.length)
    (hv : (fp.drop 8).take 1 = bl [15]) :
    parse_header fp hash verify =
      (if verify ∧ hash ≠ md5hex (fp.take 8 ++ bl [15] ++
          (readFp ((fp.drop 8).drop 1)
            (i32be (((fp.take 8).drop 4).take 4) - 9)).1)
        then .error .assertHeaderChecksum
        else (parse_block_info
            (readFp ((fp.drop 8).drop 1)
              (i32be (((fp.take 8).drop 4).take 4) - 9)).1).map
          fun t => (t, (readFp ((fp.drop 8).drop 1)
            (i32be (((fp.take 8).drop 4).take 4) - 9)).2)) := by
  have h4 : (fp.take 8).take 4 = bl [66, 76, 84, 69] := by
    rw [List.take_take]
    simpa using hm
  have hlen8 : (fp.take 8).length = 8 := by
    simp [List.length_take]
    omega
  have hd4len : (((fp.take 8).drop 4).take 4).length = 4 := by
    simp [hlen8]
  unfold parse_header
  rw [if_neg (by simp [h4]), if_neg (by omega), if_neg (by simp [hv])]

/-- C6: header parsing fails with the bad-magic assertion when the first
4 bytes are not `BLTE`; with the magic right and 8 bytes available, it
fails with the bad-version assertion when the byte at offset 8 is not
`0x0F`; and when both checks pass it proceeds to the optional header
checksum gate and then to block-info parsing. -/
theorem C6_header_checks (fp : List Byte) (hash : String) (verify : Bool) :
    (fp.take 4 ≠ bl [66, 76, 84, 69] →
      BLTEDecoder.init fp hash verify = .error .assertBadMagic) ∧
    (fp.take 4 = bl [66, 76, 84, 69] → 8 ≤ fp.length →
      (fp.drop 8).take 1 ≠ bl [15] →
      BLTEDecoder.init fp hash verify = .error .assertBadVersion) ∧
    (fp.take 4 = bl [66, 76, 84, 69] → 8 ≤ fp.length →
      (fp.drop 8).take 1 = bl [15] →
      BLTEDecoder.init fp hash verify =
        (if verify ∧ hash ≠ md5hex (fp.take 8 ++ bl [15] ++
            (readFp ((fp.drop 8).drop 1)
              (i32be (((fp.take 8).drop 4).take 4) - 9)).1)
          then .error .assertHeaderChecksum
          else (parse_block_info
              (readFp ((fp.drop 8).drop 1)
                (i32be (((fp.take 8).drop 4).take 4) - 9)).1).map
            fun t => ⟨(readFp ((fp.drop 8).drop 1)
              (i32be (((fp.take 8).drop 4).take 4) - 9)).2, t, 0, hash, verify⟩)) := by
  refine ⟨?_, ?_, ?_⟩
  · intro hm
    have h4 : (fp.take 8).take 4 ≠ bl [66, 76, 84, 69] := by
      rw [List.take_take]
      simpa using hm
    unfold BLTEDecoder.init parse_header
    rw [if_pos h4]
    rfl
  · intro hm hlen hv
    have h4 : (fp.take 8).take 4 = bl [66, 76, 84, 69] := by
      rw [List.take_take]
      simpa using hm
    have hlen8 : (fp.take 8).length = 8 := by
      simp [List.length_take]
      omega
    have hd4len : (((fp.take 8).drop 4).take 4).length = 4 := by
      simp [hlen8]
    unfold BLTEDecoder.init parse_header
    rw [if_neg (by simp [h4]), if_neg (by omega), if_pos (by simp [hv])]
    rfl
  · intro hm hlen hv
    unfold BLTEDecoder.init
    rw [parse_header_checks fp hash verify hm hlen hv]
    split
    · rfl
    · cases hp : parse_block_info
          (readFp ((fp.drop 8).drop 1)
            (i32be (((fp.take 8).drop 4).take 4) - 9)).1 with
      | error e => rfl
      | ok t => rfl

/-- Witness for C6: a wrong magic fails, a wrong version byte fails, and
a good empty-table header parses to a fresh decoder. -/
theorem C6_header_checks_witness :
    BLTEDecoder.init (bl [88, 88, 88, 88]) "h" false = .error .assertBadMagic ∧
    BLTEDecoder.init (bl [66, 76, 84, 69, 0, 0, 0, 12, 16]) "h" false =
      .error .assertBadVersion ∧
    BLTEDecoder.init contEmptyT "x" false = .ok dEmptyT :=
  ⟨(C6_header_checks _ "h" false).1 (by decide),
   (C6_header_checks _ "h" false).2.1 (by decide) (by decide) (by decide),
   ((C6_header_checks contEmptyT "x" false).2.2 rfl (by decide) rfl).trans rfl⟩

/-- C3 (amended): with verification enabled and the magic, length and
version checks passing, construction fails with the header-checksum
assertion exactly when the supplied hash differs — by exact,
case-sensitive string equality — from the lowercase hex MD5 of the 8-byte
prefix, the version byte and the block-info region. -/
theorem C3_header_checksum_exact (fp : List Byte) (hash : String)
    (hm : fp.take 4 = bl [66, 76, 84, 69]) (hlen : 8 ≤ fp.length)
    (hv : (fp.drop 8).take 1 = bl [15]) :
    BLTEDecoder.init fp hash true = .error .assertHeaderChecksum ↔
      hash ≠ md5hex (fp.take 8 ++ bl [15] ++
        (readFp ((fp.drop 8).drop 1)
          (i32be (((fp.take 8).drop 4).take 4) - 9)).1) := by
  unfold BLTEDecoder.init
  rw [parse_header_checks fp hash true hm hlen hv]
  by_cases hD : hash = md5hex (fp.take 8 ++ bl [15] ++
      (readFp ((fp.drop 8).drop 1) (i32be (((fp.take 8).drop 4).take 4) - 9)).1)
  · rw [if_neg (by simp [hD])]
    constructor
    · intro h
      cases hp : parse_block_info
          (readFp ((fp.drop 8).drop 1)
            (i32be (((fp.take 8).drop 4).take 4) - 9)).1 with
      | error e =>
          rw [hp, mapPyErr, mapPyErr] at h
          cases h
          exact absurd (parse_block_info_err _ _ hp) (by intro hh; cases hh)
      | ok t =>
          rw [hp, mapPyOk, mapPyOk] at h
          cases h
    · intro h
      exact absurd hD h
  · rw [if_pos (⟨rfl, hD⟩ : true = true ∧ _)]
    exact ⟨fun _ => hD, fun _ => rfl⟩

/-- Witness for the amended C3 on `contEx` with an all-zero expected
hash. -/
theorem C3_header_checksum_exact_witness :
    contEx.take 4 = bl [66, 76, 84, 69] ∧ 8 ≤ contEx.length ∧
    (contEx.drop 8).take 1 = bl [15] ∧
    BLTEDecoder.init contEx "00000000000000000000000000000000" true =
      .error .assertHeaderChecksum :=
  ⟨rfl, by decide, rfl,
    (C3_header_checksum_exact contEx "00000000000000000000000000000000"
      rfl (by decide) rfl).mpr (by decide)⟩

/-- Counterexample to C3 as stated: the comparison is not
case-insensitive.  The computed digest of `contEx`'s header region equals
the supplied hash up to letter case (lowercasing the supplied hash gives
exactly the digest), yet construction fails with the checksum
assertion. -/
theorem C3_not_case_insensitive :
    md5hex (contEx.take 8 ++ bl [15] ++
      (readFp ((contEx.drop 8).drop 1)
        (i32be (((contEx.take 8).drop 4).take 4) - 9)).1) =
      "a01aad1b5e55b720db02b3c2876dbbf2" ∧
    "A01AAD1B5E55B720DB02B3C2876DBBF2".data.map hexLower =
      "a01aad1b5e55b720db02b3c2876dbbf2".data ∧
    BLTEDecoder.init contEx "A01AAD1B5E55B720DB02B3C2876DBBF2" true =
      .error .assertHeaderChecksum :=
  ⟨rfl, by decide, rfl⟩

/-- Helper: a successful block production bumps the cursor by one. -/
theorem produceOne_index (d : BLTEDecoder) (e : BlockEntry)
    (p : List Byte × BLTEDecoder) (h : produceOne d e = .ok p) :
    p.2.block_index = d.block_index + 1 := by
  unfold produceOne at h
  split at h
  · cases h
  · cases h
    rfl

/-- Helper: the only error a block production can raise is the checksum
assertion. -/
theorem produceOne_err (d : BLTEDecoder) (e : BlockEntry) (x : PyErr)
    (h : produceOne d e = .error x) : x = .assertBlockChecksum := by
  unfold produceOne at h
  split at h
  · cases h
    rfl
  · cases h

/-- Helper: successfully walking the raw-block loop advances the cursor
by the number of processed table rows. -/
theorem runEncLoop_index (es : List BlockEntry) (d : BLTEDecoder)
    (r : List (List Byte) × BLTEDecoder) (h : runEncLoop es d = .ok r) :
    r.2.block_index = d.block_index + es.length := by
  induction es generalizing d r with
  | nil =>
      rw [runEncLoop] at h
      cases h
      rfl
  | cons e rest ih =>
      rw [runEncLoop] at h
      cases hp : produceOne d e with
      | error e2 =>
          rw [hp, bindPyErr] at h
          cases h
      | ok p =>
          rw [hp, bindPyOk] at h
          cases hr : runEncLoop rest p.2 with
          | error e2 =>
              rw [hr, mapPyErr] at h
              cases h
          | ok r2 =>
              rw [hr, mapPyOk] at h
              cases h
              have h1 : p.2.block_index = d.block_index + 1 :=
                produceOne_index d e p hp
              have h2 : r2.2.block_index = p.2.block_index + rest.length :=
                ih p.2 r2 hr
              show r2.2.block_index = d.block_index + (e :: rest).length
              simp only [List.length_cons]
              omega

/-- Helper: successfully walking the decoded-block loop advances the
cursor by the number of processed table rows. -/
theorem runDecLoop_index (es : List BlockEntry) (d : BLTEDecoder)
    (r : List (List Byte) × BLTEDecoder) (h : runDecLoop es d = .ok r) :
    r.2.block_index = d.block_index + es.length := by
  induction es generalizing d r with
  | nil =>
      rw [runDecLoop] at h
      cases h
      rfl
  | cons e rest ih =>
      rw [runDecLoop] at h
      cases hp : produceOne d e with
      | error e2 =>
          rw [hp, bindPyErr] at h
          cases h
      | ok p =>
          rw [hp, bindPyOk] at h
          cases hd : decode_block p.1 with
          | error e2 =>
              rw [hd, bindPyErr] at h
              cases h
          | ok dec =>
              rw [hd, bindPyOk] at h
              cases hr : runDecLoop rest p.2 with
              | error e2 =>
                  rw [hr, mapPyErr] at h
                  cases h
              | ok r2 =>
                  rw [hr, mapPyOk] at h
                  cases h
                  have h1 : p.2.block_index = d.block_index + 1 :=
                    produceOne_index d e p hp
                  have h2 : r2.2.block_index = p.2.block_index + rest.length :=
                    ih p.2 r2 hr
                  show r2.2.block_index = d.block_index + (e :: rest).length
                  simp only [List.length_cons]
                  omega

/-- C4: after fully consuming the decoded-block sequence (or the raw
encoded-block sequence) of a container with at least one block, beginning
a second traversal of either sequence fails with the one-shot
`RuntimeError`. -/
theorem C4_one_shot (d d1 : BLTEDecoder) (bs : List (List Byte))
    (hne : d.block_table ≠ [])
    (h : runDec d = .ok (bs, d1) ∨ runEnc d = .ok (bs, d1)) :
    runDec d1 = .error .alreadyIterated ∧
    runEnc d1 = .error .alreadyIterated := by
  have hlen : d.block_table.length ≠ 0 := by
    simpa [List.length_eq_zero] using hne
  have hidx : d1.block_index ≠ 0 := by
    cases h with
    | inl h =>
        unfold runDec at h
        split at h
        · cases h
        · have h2 : d1.block_index = d.block_index + d.block_table.length :=
            runDecLoop_index _ _ _ h
          omega
    | inr h =>
        unfold runEnc at h
        split at h
        · cases h
        · have h2 : d1.block_index = d.block_index + d.block_table.length :=
            runEncLoop_index _ _ _ h
          omega
  exact ⟨by unfold runDec; rw [if_pos hidx], by unfold runEnc; rw [if_pos hidx]⟩

/-- Witness for C4 on `contEx`'s decoder: draining the decoded sequence
succeeds, after which both traversals fail. -/
theorem C4_one_shot_witness :
    dEx.block_table ≠ [] ∧
    runDec dEx = .ok ([bl [97, 98, 99, 100], bl [120, 121, 122]], dExDone) ∧
    runDec dExDone = .error .alreadyIterated ∧
    runEnc dExDone = .error .alreadyIterated := by
  refine ⟨by decide, by rfl, ?_⟩
  exact C4_one_shot dEx dExDone [bl [97, 98, 99, 100], bl [120, 121, 122]]
    (by decide) (Or.inl (by rfl))

/-- C9: the one-shot cursor increments exactly when a block is yielded;
requesting `encoded_blocks` builds a generator without running any check
(`encoded_blocks_request` is a total function); the `RuntimeError` guard
can only fire on the first advance of a fresh generator — an already
running generator never raises it; and a decoder whose block table is
empty can be requested and exhausted any number of times, its cursor
staying 0, so no traversal ever raises the guard. -/
theorem C9_cursor_semantics (d : BLTEDecoder) :
    (∀ e p, produceOne d e = .ok p → p.2.block_index = d.block_index + 1) ∧
    (∀ e rest, encGenStep d (.running (e :: rest)) ≠ .error .alreadyIterated) ∧
    (d.block_table = [] → d.block_index = 0 →
      encoded_blocks_request d = .fresh ∧
      encGenStep d .fresh = .ok (none, d, .finished) ∧
      runEnc d = .ok ([], d) ∧ runDec d = .ok ([], d)) := by
  refine ⟨fun e p h => produceOne_index d e p h, ?_, ?_⟩
  · intro e rest hcontra
    have hc2 : (produceOne d e).map
        (fun p => (some p.1, p.2, EncGenState.running rest)) =
        .error .alreadyIterated := hcontra
    cases hp : produceOne d e with
    | ok p =>
        rw [hp, mapPyOk] at hc2
        cases hc2
    | error e2 =>
        rw [hp, mapPyErr] at hc2
        cases hc2
        exact absurd (produceOne_err d e _ hp) (by intro hh; cases hh)
  · intro h0 hi
    obtain ⟨dfp, dtab, dbi, dh, dv⟩ := d
    simp only at h0 hi
    subst h0
    subst hi
    exact ⟨rfl, rfl, rfl, rfl⟩

/-- Witness for C9 on the empty-table decoder `dEmptyT`. -/
theorem C9_cursor_semantics_witness :
    encGenStep dEmptyT .fresh = .ok (none, dEmptyT, .finished) ∧
    runEnc dEmptyT = .ok ([], dEmptyT) ∧ runDec dEmptyT = .ok ([], dEmptyT) :=
  ⟨((C9_cursor_semantics dEmptyT).2.2 rfl rfl).2.1,
   ((C9_cursor_semantics dEmptyT).2.2 rfl rfl).2.2.1,
   ((C9_cursor_semantics dEmptyT).2.2 rfl rfl).2.2.2⟩

/-- Helper: mapping twice over an `Except PyErr` computation composes. -/
theorem mapPyComp {α β γ : Type} (x : Except PyErr α) (f : α → β) (g : β → γ) :
    (x.map f).map g = x.map (g ∘ f) := by
  cases x <;> rfl

/-- Helper: a 4-byte big-endian rendering decodes back to its value for
values below `2^31` (the sign bit clear). -/
theorem i32be_be4 (n : Nat) (h : n < 2147483648) : i32be (be4 n) = n := by
  unfold i32be be4 bl byteOf
  simp only [List.map_cons, List.map_nil, List.foldl]
  split
  · omega
  · omega

/-- Helper: the zero-extended 3-byte big-endian block count decodes back
to its value. -/
theorem i32be_be3 (n : Nat) (h : n < 16777216) :
    (i32be (byteOf 0 :: be3 n)).toNat = n := by
  unfold i32be be3 bl byteOf
  simp only [List.map_cons, List.map_nil, List.foldl]
  split
  · omega
  · omega

/-- Helper: a block-descriptor row is 24 bytes when its checksum field is
16 bytes. -/
theorem mkEntryBytes_length (e : Int × Int × List Byte) (h : e.2.2.length = 16) :
    (mkEntryBytes e).length = 24 := by
  unfold mkEntryBytes be4 bl
  simp [h]

/-- Helper: the descriptor region is 24 bytes per entry. -/
theorem rows_length (es : List (Int × Int × List Byte))
    (h16 : ∀ e ∈ es, e.2.2.length = 16) :
    (es.flatMap mkEntryBytes).length = 24 * es.length := by
  induction es with
  | nil => rfl
  | cons a t ih =>
      have ha : (mkEntryBytes a).length = 24 :=
        mkEntryBytes_length a (h16 a (by simp))
      have ht := ih (fun e he => h16 e (by simp [he]))
      simp [List.flatMap_cons, ha, ht]
      ring

/-- Helper: parsing one descriptor row off the front of the region. -/
theorem parse_loop_cons (a : Int × Int × List Byte)
    (l : List (Int × Int × List Byte)) (T : List BlockEntry)
    (ha : a.2.2.length = 16)
    (h : parse_block_info_loop l.length (l.flatMap mkEntryBytes) = .ok T) :
    parse_block_info_loop (a :: l).length ((a :: l).flatMap mkEntryBytes) =
      .ok (⟨i32be (be4 (a.1.toNat % 4294967296)),
            i32be (be4 (a.2.1.toNat % 4294967296)), hexlify a.2.2⟩ :: T) := by
  have hlen : (mkEntryBytes a).length = 24 := mkEntryBytes_length a ha
  have htake : ((a :: l).flatMap mkEntryBytes).take 24 = mkEntryBytes a := by
    rw [List.flatMap_cons]
    exact List.take_left' hlen
  have hdrop : ((a :: l).flatMap mkEntryBytes).drop 24 = l.flatMap mkEntryBytes := by
    rw [List.flatMap_cons]
    exact List.drop_left' hlen
  have hrow4 : (mkEntryBytes a).take 4 = be4 (a.1.toNat % 4294967296) := by
    unfold mkEntryBytes
    exact List.take_left'
      (show (be4 (a.1.toNat % 4294967296)).length = 4 from rfl)
  have hrowd4 : (mkEntryBytes a).drop 4 =
      be4 (a.2.1.toNat % 4294967296) ++ a.2.2 := by
    unfold mkEntryBytes
    exact List.drop_left'
      (show (be4 (a.1.toNat % 4294967296)).length = 4 from rfl)
  have hrow8 : (mkEntryBytes a).drop 8 = a.2.2 := by
    rw [show (8 : Nat) = 4 + 4 from rfl, ← List.drop_drop, hrowd4]
    exact List.drop_left'
      (show (be4 (a.2.1.toNat % 4294967296)).length = 4 from rfl)
  have hrow44 : ((mkEntryBytes a).drop 4).take 4 =
      be4 (a.2.1.toNat % 4294967296) := by
    rw [hrowd4]
    exact List.take_left'
      (show (be4 (a.2.1.toNat % 4294967296)).length = 4 from rfl)
  rw [List.length_cons, parse_block_info_loop, htake, hdrop, h, mapPyOk,
    if_neg (by rw [hlen]; omega), hrow4, hrow44, hrow8]

/-- Helper: regions built from descriptor lists that agree on both size
fields parse to tables that agree on `encoded_size`, row by row. -/
theorem parse_loop_rel (es1 es2 : List (Int × Int × List Byte))
    (hrel : List.Forall₂ (fun a b => a.1 = b.1 ∧ a.2.1 = b.2.1 ∧
      a.2.2.length = 16 ∧ b.2.2.length = 16) es1 es2) :
    ∃ T1 T2,
      parse_block_info_loop es1.length (es1.flatMap mkEntryBytes) = .ok T1 ∧
      parse_block_info_loop es2.length (es2.flatMap mkEntryBytes) = .ok T2 ∧
      List.Forall₂ (fun t1 t2 : BlockEntry =>
        t1.encoded_size = t2.encoded_size) T1 T2 := by
  induction hrel with
  | nil => exact ⟨[], [], rfl, rfl, .nil⟩
  | @cons a b l1 l2 hab hl ih =>
      obtain ⟨T1, T2, e1, e2, hF⟩ := ih
      refine ⟨_, _, parse_loop_cons a l1 T1 hab.2.2.1 e1,
        parse_loop_cons b l2 T2 hab.2.2.2 e2, ?_⟩
      exact .cons (by simp [hab.1]) hF

/-- Helper: the block-info region of `mkContainer` parses with
`parse_block_info_loop` over the descriptor rows. -/
theorem parse_block_info_append (n : Nat) (hn : n < 16777216) (R : List Byte) :
    parse_block_info (be3 n ++ R) = parse_block_info_loop n R := by
  have htake : (be3 n ++ R).take 3 = be3 n := List.take_left' rfl
  have hdrop : (be3 n ++ R).drop 3 = R := List.drop_left' rfl
  unfold parse_block_info
  rw [htake, hdrop, if_neg (by simp [be3, bl]), i32be_be3 n hn]

/-- Helper: constructing a decoder on a `mkContainer` byte stream with
verification off reduces to parsing the descriptor rows. -/
theorem init_mkContainer (es : List (Int × Int × List Byte)) (body : List Byte)
    (h : String) (hn : es.length < 16777216)
    (h16 : ∀ e ∈ es, e.2.2.length = 16) :
    BLTEDecoder.init (mkContainer es body) h false =
      (parse_block_info_loop es.length (es.flatMap mkEntryBytes)).map
        fun t => ⟨body, t, 0, h, false⟩ := by
  have hrows : (es.flatMap mkEntryBytes).length = 24 * es.length :=
    rows_length es h16
  have hc : mkContainer es body =
      (bl [66, 76, 84, 69] ++ be4 (12 + 24 * es.length)) ++
      (bl [15] ++ ((be3 es.length ++ es.flatMap mkEntryBytes) ++ body)) := by
    unfold mkContainer
    simp [List.append_assoc]
  have htake8 : (mkContainer es body).take 8 =
      bl [66, 76, 84, 69] ++ be4 (12 + 24 * es.length) := by
    rw [hc]
    exact List.take_left' rfl
  have hdrop8 : (mkContainer es body).drop 8 =
      bl [15] ++ ((be3 es.length ++ es.flatMap mkEntryBytes) ++ body) := by
    rw [hc]
    exact List.drop_left' rfl
  have hmagic : (mkContainer es body).take 4 = bl [66, 76, 84, 69] := by
    rw [hc, List.append_assoc]
    exact List.take_left' rfl
  have hlen : 8 ≤ (mkContainer es body).length := by
    rw [hc]
    simp [be4, bl]
  have hver : ((mkContainer es body).drop 8).take 1 = bl [15] := by
    rw [hdrop8]
    exact List.take_left' rfl
  have hdrop9 : ((mkContainer es body).drop 8).drop 1 =
      (be3 es.length ++ es.flatMap mkEntryBytes) ++ body := by
    rw [hdrop8]
    exact List.drop_left' rfl
  have hsz : (((mkContainer es body).take 8).drop 4).take 4 =
      be4 (12 + 24 * es.length) := by
    rw [htake8,
      List.drop_left' (show (bl [66, 76, 84, 69]).length = 4 from rfl)]
    exact List.take_of_length_le (by simp [be4, bl])
  have hszv : i32be ((((mkContainer es body).take 8).drop 4).take 4) =
      (12 + 24 * es.length : Int) := by
    rw [hsz, i32be_be4 _ (by omega)]
    push_cast
    ring
  have hinfo : (be3 es.length ++ es.flatMap mkEntryBytes).length =
      3 + 24 * es.length := by
    simp [be3, bl, hrows]
    omega
  have hread : readFp (((mkContainer es body).drop 8).drop 1)
      (i32be ((((mkContainer es body).take 8).drop 4).take 4) - 9) =
      (be3 es.length ++ es.flatMap mkEntryBytes, body) := by
    rw [hdrop9, hszv]
    unfold readFp
    rw [if_neg (by omega)]
    have htn : ((12 + 24 * (es.length : Int)) - 9).toNat = 3 + 24 * es.length := by
      omega
    rw [htn, ← hinfo, List.take_left, List.drop_left]
  unfold BLTEDecoder.init
  rw [parse_header_checks _ h false hmagic hlen hver, if_neg (by simp), hread]
  rw [show (be3 es.length ++ es.flatMap mkEntryBytes, body).1 =
      be3 es.length ++ es.flatMap mkEntryBytes from rfl]
  rw [parse_block_info_append es.length hn (es.flatMap mkEntryBytes)]
  cases parse_block_info_loop es.length (es.flatMap mkEntryBytes) with
  | error e => rfl
  | ok t => rfl

/-- Helper: with verification off, the decoded traversal depends only on
the stream and the `encoded_size` column of the table: tables agreeing on
sizes over equal streams produce identical decoded sequences and
identical failures. -/
theorem runDecLoop_noverify (T1 T2 : List BlockEntry) (d1 d2 : BLTEDecoder)
    (hfp : d1.fp = d2.fp) (hv1 : d1.verify = false) (hv2 : d2.verify = false)
    (hF : List.Forall₂ (fun a b : BlockEntry =>
      a.encoded_size = b.encoded_size) T1 T2) :
    (runDecLoop T1 d1).map Prod.fst = (runDecLoop T2 d2).map Prod.fst := by
  induction hF generalizing d1 d2 with
  | nil => rfl
  | @cons a b l1 l2 hab hl ih =>
      rw [runDecLoop, runDecLoop]
      have hp1 : produceOne d1 a = .ok ((readFp d1.fp a.encoded_size).1,
          { d1 with fp := (readFp d1.fp a.encoded_size).2,
                    block_index := d1.block_index + 1 }) := by
        unfold produceOne
        rw [if_neg (by simp [hv1])]
      have hp2 : produceOne d2 b = .ok ((readFp d1.fp a.encoded_size).1,
          { d2 with fp := (readFp d1.fp a.encoded_size).2,
                    block_index := d2.block_index + 1 }) := by
        unfold produceOne
        rw [if_neg (by simp [hv2]), ← hab, ← hfp]
      rw [hp1, hp2, bindPyOk, bindPyOk]
      cases hdec : decode_block (readFp d1.fp a.encoded_size).1 with
      | error e => rw [bindPyErr, bindPyErr]
      | ok dec =>
          rw [bindPyOk, bindPyOk]
          have ihx := ih
            { d1 with fp := (readFp d1.fp a.encoded_size).2,
                      block_index := d1.block_index + 1 }
            { d2 with fp := (readFp d1.fp a.encoded_size).2,
                      block_index := d2.block_index + 1 }
            rfl (by simp [hv1]) (by simp [hv2])
          cases hr1 : runDecLoop l1
              { d1 with fp := (readFp d1.fp a.encoded_size).2,
                        block_index := d1.block_index + 1 } with
          | error e1 =>
              rw [hr1, mapPyErr] at ihx
              cases hr2 : runDecLoop l2
                  { d2 with fp := (readFp d1.fp a.encoded_size).2,
                            block_index := d2.block_index + 1 } with
              | error e2 =>
                  rw [hr2, mapPyErr] at ihx
                  injection ihx with he
                  subst he
                  rfl
              | ok r2 =>
                  rw [hr2, mapPyOk] at ihx
                  exact Except.noConfusion ihx
          | ok r1 =>
              rw [hr1, mapPyOk] at ihx
              cases hr2 : runDecLoop l2
                  { d2 with fp := (readFp d1.fp a.encoded_size).2,
                            block_index := d2.block_index + 1 } with
              | error e2 =>
                  rw [hr2, mapPyErr] at ihx
                  exact Except.noConfusion ihx
              | ok r2 =>
                  rw [hr2, mapPyOk] at ihx
                  have hfst : r1.1 = r2.1 := by injection ihx
                  show Except.ok (dec :: r1.1) = Except.ok (dec :: r2.1)
                  rw [hfst]

/-- C8: with verification disabled, the decoded output and the
success or failure of construction and iteration are independent of every
checksum field: two containers that differ only in the 16-byte per-block
checksum entries (payloads and size fields equal) produce identical
results, and in particular if the first decodes to some block sequence,
so does the second. -/
theorem C8_checksum_independent (es1 es2 : List (Int × Int × List Byte))
    (body : List Byte) (h1 h2 : String) (hn : es1.length < 16777216)
    (hrel : List.Forall₂ (fun a b => a.1 = b.1 ∧ a.2.1 = b.2.1 ∧
      a.2.2.length = 16 ∧ b.2.2.length = 16) es1 es2) :
    fullDecode (mkContainer es1 body) h1 false =
      fullDecode (mkContainer es2 body) h2 false ∧
    (∀ bs, fullDecode (mkContainer es1 body) h1 false = .ok bs →
      fullDecode (mkContainer es2 body) h2 false = .ok bs) := by
  have hlen12 : es1.length = es2.length := hrel.length_eq
  have h16a : ∀ e ∈ es1, e.2.2.length = 16 := by
    clear hn hlen12
    induction hrel with
    | nil => intro e he; cases he
    | cons hab hl ih =>
        intro e he
        cases he with
        | head => exact hab.2.2.1
        | tail _ ht => exact ih e ht
  have h16b : ∀ e ∈ es2, e.2.2.length = 16 := by
    clear hn hlen12 h16a
    induction hrel with
    | nil => intro e he; cases he
    | cons hab hl ih =>
        intro e he
        cases he with
        | head => exact hab.2.2.2
        | tail _ ht => exact ih e ht
  obtain ⟨T1, T2, e1, e2, hF⟩ := parse_loop_rel es1 es2 hrel
  have hmain : fullDecode (mkContainer es1 body) h1 false =
      fullDecode (mkContainer es2 body) h2 false := by
    unfold fullDecode
    rw [init_mkContainer es1 body h1 hn h16a,
      init_mkContainer es2 body h2 (hlen12 ▸ hn) h16b, e1, e2, mapPyOk,
      mapPyOk, bindPyOk, bindPyOk]
    show (runDec ⟨body, T1, 0, h1, false⟩).map Prod.fst =
      (runDec ⟨body, T2, 0, h2, false⟩).map Prod.fst
    unfold runDec
    rw [if_neg (by simp), if_neg (by simp)]
    exact runDecLoop_noverify T1 T2 _ _ rfl rfl rfl hF
  exact ⟨hmain, fun bs hbs => hmain ▸ hbs⟩

/-- Helper: binding a failed `Except ZErr` computation propagates the
error. -/
theorem bindZErr {α β : Type} (e : ZErr) (f : α → Except ZErr β) :
    (Except.error e : Except ZErr α).bind f = .error e := rfl

/-- Helper: binding a successful `Except ZErr` computation applies the
continuation. -/
theorem bindZOk {α β : Type} (a : α) (f : α → Except ZErr β) :
    (Except.ok a : Except ZErr α).bind f = f a := rfl

/-- Helper: mapping over a failed `Except ZErr` computation propagates
the error. -/
theorem mapZErr {α β : Type} (e : ZErr) (f : α → β) :
    (Except.error e : Except ZErr α).map f = .error e := rfl

/-- Helper: mapping over a successful `Except ZErr` computation applies
the function. -/
theorem mapZOk {α β : Type} (a : α) (f : α → β) :
    (Except.ok a : Except ZErr α).map f = .ok (f a) := rfl

/-- Helper: reading one bit strictly inside a byte advances the bit
position. -/
theorem readBit_mid (b : Byte) (rest : List Byte) (p : Nat) (hp : p ≠ 7) :
    readBit ⟨b :: rest, p⟩ =
      .ok ((b.val >>> p) &&& 1, ⟨b :: rest, p + 1⟩) := by
  have h : readBit ⟨b :: rest, p⟩ =
      .ok ((b.val >>> p) &&& 1,
        if p = 7 then ⟨rest, 0⟩ else ⟨b :: rest, p + 1⟩) := rfl
  rw [h, if_neg hp]

/-- Helper: reading the last bit of a byte moves to the next byte. -/
theorem readBit_last (b : Byte) (rest : List Byte) :
    readBit ⟨b :: rest, 7⟩ = .ok ((b.val >>> 7) &&& 1, ⟨rest, 0⟩) := rfl

/-- Helper: reading exactly to the byte boundary yields the remaining
high bits of the head byte and leaves an aligned state. -/
theorem readBits_completeByte :
    ∀ (n p : Nat) (b : Byte) (rest : List Byte), p + n = 8 → 1 ≤ n →
    readBits n ⟨b :: rest, p⟩ = .ok ((b.val >>> p) % 2 ^ n, ⟨rest, 0⟩)
  | 0, p, b, rest, h, h1 => by omega
  | n+1, p, b, rest, h, _ => by
      by_cases hn : n = 0
      · subst hn
        have hp : p = 7 := by omega
        subst hp
        rw [readBits, readBit_last, bindZOk, readBits, mapZOk]
        dsimp only
        norm_num [Nat.and_one_is_mod]
      · have hp : p ≠ 7 := by omega
        rw [readBits, readBit_mid b rest p hp, bindZOk,
          readBits_completeByte n (p + 1) b rest (by omega) (by omega), mapZOk]
        dsimp only
        have hsh : b.val >>> (p + 1) = (b.val >>> p) / 2 := by
          rw [Nat.shiftRight_succ]
        rw [Nat.and_one_is_mod, hsh, pow_succ, mul_comm (2 ^ n) 2, Nat.mod_mul]

/-- Helper: reading 8 bits at a byte boundary yields exactly the head
byte. -/
theorem readBits_eight (b : Byte) (rest : List Byte) :
    readBits 8 ⟨b :: rest, 0⟩ = .ok (b.val, ⟨rest, 0⟩) := by
  rw [readBits_completeByte 8 0 b rest rfl (by omega)]
  have hb : (b.val >>> 0) % 2 ^ 8 = b.val := by
    rw [Nat.shiftRight_zero]
    exact Nat.mod_eq_of_lt b.isLt
  rw [hb]

/-- Helper: a bit read of `m + n` bits splits into two successive reads,
the first filling the low `m` bits. -/
theorem readBits_add (m n : Nat) (st : InfSt) :
    readBits (m + n) st = (readBits m st).bind fun p =>
      (readBits n p.2).map fun q => (p.1 + 2 ^ m * q.1, q.2) := by
  induction m generalizing st with
  | zero =>
      rw [Nat.zero_add, readBits, bindZOk]
      cases h : readBits n st with
      | error e => rw [mapZErr]
      | ok q =>
          rw [mapZOk]
          dsimp only
          norm_num
  | succ m ih =>
      rw [show m + 1 + n = (m + n) + 1 from by omega, readBits, readBits]
      cases hb : readBit st with
      | error e => rw [bindZErr, bindZErr, bindZErr]
      | ok bp =>
          rw [bindZOk, bindZOk, ih bp.2]
          cases hv : readBits m bp.2 with
          | error e => rw [bindZErr, mapZErr, bindZErr]
          | ok vp =>
              rw [bindZOk, mapZOk, bindZOk]
              cases hq : readBits n vp.2 with
              | error e => rw [mapZErr, mapZErr, mapZErr]
              | ok qp =>
                  rw [mapZOk, mapZOk, mapZOk]
                  dsimp only
                  rw [pow_succ]
                  ring_nf

/-- Helper: reading 16 bits at a byte boundary yields the two head bytes
little-endian. -/
theorem readBits_sixteen (a b : Byte) (rest : List Byte) :
    readBits 16 ⟨a :: b :: rest, 0⟩ = .ok (a.val + 256 * b.val, ⟨rest, 0⟩) := by
  rw [show (16 : Nat) = 8 + 8 from rfl, readBits_add, readBits_eight, bindZOk,
    readBits_eight, mapZOk]
  dsimp only
  norm_num

/-- Helper: one stored DEFLATE block inflates to its chunk, consuming
exactly its encoding. -/
theorem inflate_stored_step (final : Bool) (c rest out : List Byte)
    (hc : c.length ≤ 65535) (fuel : Nat) :
    inflateBlocks (fuel + 1) ⟨mkStored final c ++ rest, 0⟩ out =
      if final then .ok (out ++ c, ⟨rest, 0⟩)
      else inflateBlocks fuel ⟨rest, 0⟩ (out ++ c) := by
  have hx : c.length ^^^ 65535 < 65536 := by
    have h2 := Nat.xor_lt_two_pow (n := 16) (x := c.length) (y := 65535)
      (by omega) (by omega)
    omega
  have hv1 : c.length % 256 % 256 + 256 * (c.length / 256 % 256) = c.length := by
    omega
  have hv2 : (c.length ^^^ 65535) % 256 % 256 +
      256 * ((c.length ^^^ 65535) / 256 % 256) = c.length ^^^ 65535 := by
    omega
  have htk : takeBytes c.length ⟨c ++ rest, 0⟩ = .ok (c, ⟨rest, 0⟩) := by
    unfold takeBytes
    rw [if_neg (by simp), List.take_left, List.drop_left]
  have hskelT : ∀ (L : List Byte),
      inflateBlocks (fuel + 1) ⟨byteOf 1 :: L, 0⟩ out =
        (readBits 16 ⟨L, 0⟩).bind fun ln =>
          (readBits 16 ln.2).bind fun nl =>
            if ln.1 ^^^ 65535 ≠ nl.1 then .error .storedLen
            else (takeBytes ln.1 nl.2).bind fun ck =>
              .ok (out ++ ck.1, ck.2) := fun L => rfl
  have hskelF : ∀ (L : List Byte),
      inflateBlocks (fuel + 1) ⟨byteOf 0 :: L, 0⟩ out =
        (readBits 16 ⟨L, 0⟩).bind fun ln =>
          (readBits 16 ln.2).bind fun nl =>
            if ln.1 ^^^ 65535 ≠ nl.1 then .error .storedLen
            else (takeBytes ln.1 nl.2).bind fun ck =>
              inflateBlocks fuel ck.2 (out ++ ck.1) := fun L => rfl
  cases final with
  | true =>
      rw [show mkStored true c ++ rest = byteOf 1 :: byteOf (c.length % 256) ::
          byteOf (c.length / 256) :: byteOf ((c.length ^^^ 65535) % 256) ::
          byteOf ((c.length ^^^ 65535) / 256) :: (c ++ rest)
        from by simp [mkStored]]
      rw [hskelT, readBits_sixteen, bindZOk]
      simp only [byteOf, Fin.val]
      rw [hv1, readBits_sixteen, bindZOk, hv2, if_neg (by omega), htk, bindZOk]
      simp
  | false =>
      rw [show mkStored false c ++ rest = byteOf 0 :: byteOf (c.length % 256) ::
          byteOf (c.length / 256) :: byteOf ((c.length ^^^ 65535) % 256) ::
          byteOf ((c.length ^^^ 65535) / 256) :: (c ++ rest)
        from by simp [mkStored]]
      rw [hskelF, readBits_sixteen, bindZOk]
      simp only [byteOf, Fin.val]
      rw [hv1, readBits_sixteen, bindZOk, hv2, if_neg (by omega), htk, bindZOk]
      simp

/-- Helper: the stored-block chunker reassembles to its input. -/
theorem chunksOfGo_flatten : ∀ (n : Nat) (l : List Byte),
    (chunksOfGo n l).flatten = l
  | 0, l => by simp [chunksOfGo]
  | n+1, l => by
      rw [chunksOfGo]
      split
      · simp
      · rw [List.flatten_cons, chunksOfGo_flatten n (l.drop 65535),
          List.take_append_drop]

/-- Helper: the chunker always produces at least one chunk. -/
theorem chunksOfGo_ne_nil (n : Nat) (l : List Byte) : chunksOfGo n l ≠ [] := by
  cases n with
  | zero => simp [chunksOfGo]
  | succ n =>
      rw [chunksOfGo]
      split <;> simp

/-- Helper: with enough fuel every chunk fits a stored block. -/
theorem chunksOfGo_le : ∀ (n : Nat) (l : List Byte), l.length ≤ n + 65535 →
    ∀ c ∈ chunksOfGo n l, c.length ≤ 65535
  | 0, l, hl, c, hc => by
      rw [chunksOfGo] at hc
      simp at hc
      subst hc
      omega
  | n+1, l, hl, c, hc => by
      rw [chunksOfGo] at hc
      split at hc
      · rename_i hcond
        simp at hc
        subst hc
        exact hcond
      · cases hc with
        | head =>
            simp [List.length_take]
        | tail _ ht =>
            exact chunksOfGo_le n (l.drop 65535) (by simp; omega) c ht

/-- Helper: the stored encoding is at least as long as its chunk count
(each block costs a 5-byte header). -/
theorem encodeChunks_length_ge : ∀ (cs : List (List Byte)),
    cs.length ≤ (encodeChunks cs).length
  | [] => by simp [encodeChunks]
  | [c] => by
      simp [encodeChunks, mkStored]
  | c :: c2 :: cs => by
      have h := encodeChunks_length_ge (c2 :: cs)
      rw [show encodeChunks (c :: c2 :: cs) =
          mkStored false c ++ encodeChunks (c2 :: cs) from rfl]
      simp [mkStored] at h ⊢
      omega

/-- Helper: a sequence of stored blocks inflates to the concatenation of
its chunks, consuming exactly the encoding and stopping at the final
block. -/
theorem inflate_encodeChunks : ∀ (cs : List (List Byte)) (rest out : List Byte)
    (fuel : Nat), cs ≠ [] → (∀ c ∈ cs, c.length ≤ 65535) → cs.length ≤ fuel →
    inflateBlocks fuel ⟨encodeChunks cs ++ rest, 0⟩ out =
      .ok (out ++ cs.flatten, ⟨rest, 0⟩)
  | [], _, _, _, h, _, _ => absurd rfl h
  | [c], rest, out, fuel, _, hle, hf => by
      obtain ⟨f, rfl⟩ : ∃ f, fuel = f + 1 := ⟨fuel - 1, by simp at hf; omega⟩
      rw [show encodeChunks [c] = mkStored true c from rfl,
        inflate_stored_step true c rest out (hle c (by simp)) f, if_pos rfl]
      simp
  | c :: c2 :: cs, rest, out, fuel, _, hle, hf => by
      obtain ⟨f, rfl⟩ : ∃ f, fuel = f + 1 := ⟨fuel - 1, by simp at hf; omega⟩
      rw [show encodeChunks (c :: c2 :: cs) =
          mkStored false c ++ encodeChunks (c2 :: cs) from rfl,
        List.append_assoc,
        inflate_stored_step false c _ out (hle c (by simp)) f,
        if_neg (by simp),
        inflate_encodeChunks (c2 :: cs) rest (out ++ c) f (by simp)
          (fun x hx => hle x (List.mem_cons_of_mem c hx))
          (by simp at hf ⊢; omega)]
      simp [List.append_assoc]

/-- Helper: the running Adler-32 state components stay below the
modulus. -/
theorem adlerFold_lt : ∀ (data : List Byte) (s : Nat × Nat),
    s.1 < 65521 → s.2 < 65521 →
    (data.foldl adlerStep s).1 < 65521 ∧ (data.foldl adlerStep s).2 < 65521
  | [], s, h1, h2 => ⟨h1, h2⟩
  | b :: t, s, h1, h2 => by
      rw [List.foldl_cons]
      exact adlerFold_lt t (adlerStep s b)
        (Nat.mod_lt _ (by omega)) (Nat.mod_lt _ (by omega))

/-- Helper: an Adler-32 checksum fits in 32 bits. -/
theorem adler32_lt (data : List Byte) : adler32 data < 4294967296 := by
  unfold adler32
  have h := adlerFold_lt data (1, 0) (by omega) (by omega)
  omega

/-- Helper: the big-endian trailer parses back to the checksum value. -/
theorem read4BE_be4 (a : Nat) (ha : a < 4294967296) :
    read4BE ⟨be4 a, 0⟩ = .ok (a, ⟨[], 0⟩) := by
  unfold read4BE takeBytes
  rw [if_neg (by simp [be4, bl]), mapZOk]
  dsimp only
  rw [List.take_of_length_le (by simp [be4, bl]),
    show (be4 a).drop 4 = [] from rfl]
  unfold be4 bl byteOf
  simp only [List.map_cons, List.map_nil, List.foldl, Except.ok.injEq,
    Prod.mk.injEq]
  exact ⟨by omega, trivial⟩

/-- Amended round-trip core: `zlib.decompress(·, wbits=0)` inverts the
zlib-format stored-block compressor on every byte sequence. -/
theorem zlibDecompress_compressStored (Q : List Byte) :
    zlibDecompress (zlibCompressStored Q) = .ok Q := by
  have hQ : zlibCompressStored Q = byteOf 120 :: byteOf 1 ::
      (deflateStored Q ++ be4 (adler32 Q)) := by
    simp [zlibCompressStored, bl]
  have hz : zlibDecompress (byteOf 120 :: byteOf 1 ::
      (deflateStored Q ++ be4 (adler32 Q))) =
      (inflateBlocks (8 * (byteOf 120 :: byteOf 1 ::
          (deflateStored Q ++ be4 (adler32 Q))).length + 16)
        ⟨deflateStored Q ++ be4 (adler32 Q), 0⟩ []).bind fun os =>
        (read4BE (alignByte os.2)).bind fun av =>
          if av.1 = adler32 os.1 then .ok os.1 else .error .dataCheck := rfl
  have hcs : deflateStored Q = encodeChunks (chunksOf Q) := rfl
  have hflat : (chunksOf Q).flatten = Q := chunksOfGo_flatten Q.length Q
  have hinf : inflateBlocks (8 * (byteOf 120 :: byteOf 1 ::
      (deflateStored Q ++ be4 (adler32 Q))).length + 16)
      ⟨deflateStored Q ++ be4 (adler32 Q), 0⟩ [] =
      .ok ([] ++ (chunksOf Q).flatten, ⟨be4 (adler32 Q), 0⟩) := by
    rw [hcs]
    apply inflate_encodeChunks (chunksOf Q) (be4 (adler32 Q)) [] _
      (chunksOfGo_ne_nil Q.length Q)
      (chunksOfGo_le Q.length Q (by omega))
    have h1 := encodeChunks_length_ge (chunksOf Q)
    have h2 : (byteOf 120 :: byteOf 1 ::
        (encodeChunks (chunksOf Q) ++ be4 (adler32 Q))).length =
        2 + (encodeChunks (chunksOf Q)).length + 4 := by
      simp [be4, bl]
      omega
    omega
  rw [hQ, hz, hinf, bindZOk]
  show (read4BE (alignByte ⟨be4 (adler32 Q), 0⟩)).bind _ = _
  rw [show alignByte ⟨be4 (adler32 Q), 0⟩ = ⟨be4 (adler32 Q), 0⟩ from rfl,
    read4BE_be4 (adler32 Q) (adler32_lt Q), bindZOk, hflat]
  dsimp only [List.nil_append]
  rw [if_pos rfl]

/-- C1 (amended): for every byte sequence `Q`, decoding a block whose
bytes are the tag byte `Z` (90) followed by a zlib-format compression of
`Q` (zlib header and Adler-32 trailer around a DEFLATE body, here the
stored-block encoding) succeeds and yields exactly `Q`.  The payload must
be a zlib container, not a bare raw-deflate stream, because the code
calls `zlib.decompress(payload, wbits=0)`. -/
theorem C1_z_zlib_roundtrip (Q : List Byte) :
    decode_block (byteOf 90 :: zlibCompressStored Q) = .ok Q := by
  have h : decode_block (byteOf 90 :: zlibCompressStored Q) =
      (match zlibDecompress (zlibCompressStored Q) with
        | .ok out => .ok out
        | .error e => .error (.zlibError e)) := rfl
  rw [h, zlibDecompress_compressStored]

/-- Counterexample to C1 as stated: `rawDeflateAB` is a raw-deflate
compression of the bytes `ab` — certified by the model's own RFC 1951
decoder — yet a `Z` block carrying it fails (zlib header check) instead
of yielding `ab`, because `wbits=0` demands a zlib container. -/
theorem C1_raw_deflate_rejected :
    inflateRaw rawDeflateAB = .ok (bl [97, 98]) ∧
    decode_block (byteOf 90 :: rawDeflateAB) = .error (.zlibError .headerCheck) :=
  ⟨rfl, rfl⟩

/-- Witness for C8: two single-block containers differing only in the
table checksum bytes decode identically (and successfully) with
verification off. -/
theorem C8_checksum_independent_witness :
    fullDecode (mkContainer [(5, 4, bl (List.replicate 16 0))]
        (bl [78, 97, 98, 99, 100])) "ha" false =
      fullDecode (mkContainer [(5, 4, bl (List.replicate 16 255))]
        (bl [78, 97, 98, 99, 100])) "hb" false ∧
    fullDecode (mkContainer [(5, 4, bl (List.replicate 16 0))]
        (bl [78, 97, 98, 99, 100])) "ha" false = .ok [bl [97, 98, 99, 100]] :=
  ⟨(C8_checksum_independent [(5, 4, bl (List.replicate 16 0))]
      [(5, 4, bl (List.replicate 16 255))] (bl [78, 97, 98, 99, 100])
      "ha" "hb" (by decide)
      (.cons ⟨rfl, rfl, by decide, by decide⟩ .nil)).1,
   rfl⟩

end Keg
